import Mathlib

/-!
Shallow embedding of the `vm` command-line alias manager
(src/lib.rs and src/main/vm.rs) and proofs about its registry,
dispatcher, backup and process-forwarding behaviour.

Modelling conventions:
* Filesystem paths and `String` values are Lean `String`s; a Unix path is
  absolute iff it starts with `/` (Rust `Path::is_absolute`, non-Windows).
* `BTreeMap<String, Info>` is an association list kept in key order by the
  insert operation; `btFind` / `btInsert` / `btErase` mirror
  `BTreeMap::{get, insert, remove}`.
* The filesystem is an association list from path to file contents
  (`List Char`); `fsCopy` mirrors `std::fs::copy` (fails when the source is
  missing, silently overwrites an existing destination).
* The persisted file format is the external `toml` crate's output for the
  `Serialize`/`Deserialize` derives on `Config` and `Info`.  That codec is a
  collaborator outside this repository, so `encodeConfig` / `decodeConfig`
  below are modelled from the spec: a table-like structured-text format with
  stable key order, in which each `vm_list` entry is a table headed by its
  key and carrying `name` and `path` fields (the key and the `name` field
  are stored separately, exactly as the derives on the Rust structs do).
* One byte of interactive input is a `Nat` (the byte value); a closed
  stream is `none`.
* A process termination status is its observable `code() : Option Int`
  (`none` when the process was killed by a signal).
-/

/-- `Info { name, path }` from src/lib.rs: one `vm_list` entry. -/
structure Info where
  name : String
  path : String
  deriving DecidableEq

/-- `Config { vagrant_path, vm_list }` from src/lib.rs. -/
structure Config where
  vagrant_path : String
  vm_list : List (String × Info)
  deriving DecidableEq

/-- `BTreeMap::get`. -/
def btFind (k : String) : List (String × Info) → Option Info
  | [] => none
  | (k', v) :: rest => if k' = k then some v else btFind k rest

/-- `BTreeMap::insert` (the resulting map; the displaced value is read off
with `btFind` beforehand).  Keeps the list in key order when it was. -/
def btInsert (k : String) (v : Info) : List (String × Info) → List (String × Info)
  | [] => [(k, v)]
  | (k', v') :: rest =>
    if k < k' then (k, v) :: (k', v') :: rest
    else if k = k' then (k, v) :: rest
    else (k', v') :: btInsert k v rest

/-- `BTreeMap::remove` (the resulting map). -/
def btErase (k : String) : List (String × Info) → List (String × Info)
  | [] => []
  | (k', v') :: rest => if k' = k then rest else (k', v') :: btErase k rest

/-- A filesystem: association list from absolute path to file contents. -/
abbrev Fs := List (String × List Char)

def fsRead (p : String) : Fs → Option (List Char)
  | [] => none
  | (q, c) :: rest => if q = p then some c else fsRead p rest

/-- Write a file, overwriting any file already at that path. -/
def fsWrite (p : String) (c : List Char) : Fs → Fs
  | [] => [(p, c)]
  | (q, d) :: rest => if q = p then (p, c) :: rest else (q, d) :: fsWrite p c rest

/-- `std::fs::copy`: fails iff the source does not exist; silently
overwrites an existing destination. -/
def fsCopy (src dst : String) (fs : Fs) : Option Fs :=
  match fsRead src fs with
  | some c => some (fsWrite dst c fs)
  | none => none

/-- Rust `Path::is_absolute` on Unix: the path starts with `/`. -/
def isAbsolute (p : String) : Bool := p.data.head? == some '/'

/-- Resolution of a possibly-relative path against the current working
directory, as the OS does for paths handed to `std::fs` calls. -/
def resolvePath (cwd p : String) : String :=
  if isAbsolute p then p else cwd ++ "/" ++ p

/-- The characters of a string literal. -/
def lit (s : String) : List Char := s.data

/-- String escaping used by the structured-text codec (quoted strings with
backslash escapes for backslash, quote and newline). -/
def escapeChars : List Char → List Char
  | [] => []
  | c :: rest =>
    if c = '\\' then '\\' :: '\\' :: escapeChars rest
    else if c = '"' then '\\' :: '"' :: escapeChars rest
    else if c = '\n' then '\\' :: 'n' :: escapeChars rest
    else c :: escapeChars rest

/-- A quoted string value in the persisted file. -/
def quoteStr (s : String) : List Char := '"' :: (escapeChars s.data ++ ['"'])

/-- Parse the body of a quoted string (after the opening quote), returning
the decoded characters and the remainder after the closing quote. -/
def parseStrBody : List Char → Option (List Char × List Char)
  | [] => none
  | c :: rest =>
    if c = '"' then some ([], rest)
    else if c = '\\' then
      match rest with
      | [] => none
      | e :: rest2 =>
        if e = '\\' then (parseStrBody rest2).map (fun p => ('\\' :: p.1, p.2))
        else if e = '"' then (parseStrBody rest2).map (fun p => ('"' :: p.1, p.2))
        else if e = 'n' then (parseStrBody rest2).map (fun p => ('\n' :: p.1, p.2))
        else none
    else (parseStrBody rest).map (fun p => (c :: p.1, p.2))

/-- Parse a quoted string value. -/
def parseQuoted : List Char → Option (String × List Char)
  | [] => none
  | c :: rest =>
    if c = '"' then (parseStrBody rest).map (fun p => (String.mk p.1, p.2)) else none

/-- Expect an exact literal and return the remainder. -/
def parseLit : List Char → List Char → Option (List Char)
  | [], input => some input
  | _ :: _, [] => none
  | c :: l, d :: input => if c = d then parseLit l input else none

/-- Serialized form of one `vm_list` entry: a table headed by the key,
carrying `name` and `path` fields (the shape the `Serialize` derive on
`Info` gives the `toml` codec). -/
def encodeEntry (k : String) (i : Info) : List Char :=
  lit "[vm_list." ++ quoteStr k ++ lit "]\nname = " ++ quoteStr i.name
    ++ lit "\npath = " ++ quoteStr i.path ++ lit "\n"

/-- Parse one serialized `vm_list` entry. -/
def decodeEntry (input : List Char) : Option ((String × Info) × List Char) :=
  match parseLit (lit "[vm_list.") input with
  | none => none
  | some r1 =>
    match parseQuoted r1 with
    | none => none
    | some (k, r2) =>
      match parseLit (lit "]\nname = ") r2 with
      | none => none
      | some r3 =>
        match parseQuoted r3 with
        | none => none
        | some (nm, r4) =>
          match parseLit (lit "\npath = ") r4 with
          | none => none
          | some r5 =>
            match parseQuoted r5 with
            | none => none
            | some (p, r6) =>
              match parseLit (lit "\n") r6 with
              | none => none
              | some r7 => some ((k, { name := nm, path := p }), r7)

/-- Serialized form of the whole `vm_list`, in stored (key) order. -/
def encodeEntries : List (String × Info) → List Char
  | [] => []
  | (k, i) :: t => encodeEntry k i ++ encodeEntries t

/-- Parse a sequence of serialized entries (fuelled; one unit of fuel per
entry suffices since every entry occupies at least one character). -/
def decodeEntries : Nat → List Char → Option (List (String × Info))
  | 0, input => if input = [] then some [] else none
  | fuel + 1, input =>
    if input = [] then some []
    else
      match decodeEntry input with
      | none => none
      | some (e, rest) => (decodeEntries fuel rest).map (fun es => e :: es)

/-- Modelled from the spec: the structured-text codec collaborator (the
external `toml` crate) serializing a `Config`, with stable key ordering. -/
def encodeConfig (c : Config) : List Char :=
  lit "vagrant_path = " ++ quoteStr c.vagrant_path ++ lit "\n" ++ encodeEntries c.vm_list

/-- Modelled from the spec: the structured-text codec collaborator (the
external `toml` crate) deserializing a `Config`; `none` is a parse error. -/
def decodeConfig (input : List Char) : Option Config :=
  match parseLit (lit "vagrant_path = ") input with
  | none => none
  | some r1 =>
    match parseQuoted r1 with
    | none => none
    | some (vp, r2) =>
      match parseLit (lit "\n") r2 with
      | none => none
      | some r3 =>
        match decodeEntries r3.length r3 with
        | none => none
        | some es => some { vagrant_path := vp, vm_list := es }

/-- The config `Config::from_file` builds when no file exists at the path
(non-Windows branch: bare name `vagrant`, empty `vm_list`). -/
def defaultConfig : Config := { vagrant_path := "vagrant", vm_list := [] }

/-- `Config::from_file`: reads and deserializes the file when it exists
(`none` = toml/IO error), otherwise returns the fresh default config. -/
def Config.from_file (path : String) (fs : Fs) : Option Config :=
  match fsRead path fs with
  | some contents => decodeConfig contents
  | none => some defaultConfig

/-- `Config::save_to_file`: serializes and writes the file. -/
def Config.save_to_file (c : Config) (path : String) (fs : Fs) : Fs :=
  fsWrite path (encodeConfig c) fs

/-- `Vm` from src/lib.rs.  The Rust struct also carries the process runner
`vagrant : V`; its only observable effect here is the termination status
fed to `runRaw` below. -/
structure Vm where
  config_file_path : String
  config : Config
  deriving DecidableEq

/-- `Vm::add` (src/lib.rs:190-196): builds `Info { name, path }` with the
supplied path stored verbatim and inserts it under key `info.name`,
returning the displaced entry. -/
def Vm.add (vm : Vm) (name path : String) : Vm × Option Info :=
  let info : Info := { name := name, path := path }
  ({ vm with config := { vm.config with vm_list := btInsert info.name info vm.config.vm_list } },
   btFind info.name vm.config.vm_list)

/-- `Vm::remove` (src/lib.rs:198-200). -/
def Vm.remove (vm : Vm) (name : String) : Vm × Option Info :=
  ({ vm with config := { vm.config with vm_list := btErase name vm.config.vm_list } },
   btFind name vm.config.vm_list)

/-- `Vm::get_info` (src/lib.rs:220-222). -/
def Vm.get_info (vm : Vm) (name : String) : Option Info :=
  btFind name vm.config.vm_list

/-- `Vm::backup_config_file` (src/lib.rs:202-205): a bare `std::fs::copy`
from the config file path to the supplied destination. -/
def Vm.backup_config_file (vm : Vm) (path : String) (fs : Fs) : Option Fs :=
  fsCopy vm.config_file_path path fs

/-- `u8::is_ascii_alphabetic`. -/
def asciiIsAlphabetic (b : Nat) : Bool :=
  decide ((65 ≤ b ∧ b ≤ 90) ∨ (97 ≤ b ∧ b ≤ 122))

/-- `u8::to_ascii_lowercase`. -/
def asciiToLower (b : Nat) : Nat := if 65 ≤ b ∧ b ≤ 90 then b + 32 else b

/-- The confirmation test applied to the one byte read from stdin
(src/main/vm.rs:70): `byte.is_ascii_alphabetic() &&
byte.to_ascii_lowercase() == b'y'`. -/
def confirmByte (b : Nat) : Bool := asciiIsAlphabetic b && (asciiToLower b == 121)

/-- The `SubCommand::Remove` branch of `run_vagrant` (src/main/vm.rs:56-84).
`input` is the one byte read from stdin (`none`: stream closed).  The
returned flag records whether the entry was removed (and the config saved).
Note: the source binds `force` in the pattern but never reads it — the
prompt is printed and the stdin byte consulted on every path where the
entry exists. -/
def runRemove (vm : Vm) (name : String) (force : Bool) (input : Option Nat) : Vm × Bool :=
  match Vm.get_info vm name with
  | none => (vm, false)
  | some info =>
    let does_remove := match input with
      | some b => confirmByte b
      | none => false
    if does_remove then ((Vm.remove vm info.name).1, true) else (vm, false)

/-- The `SubCommand::Raw` branch of `run_vagrant` (src/main/vm.rs:94-105):
on a known name the tool's exit code is `status.code().unwrap_or(0)`; on an
unknown name it is 1 and no process is spawned. -/
def runRaw (vm : Vm) (name : String) (status : Option Int) : Int :=
  match Vm.get_info vm name with
  | some _ => status.getD 0
  | none => 1

/-- The backup file name built by the `SubCommand::BackupConfigFile` branch
(src/main/vm.rs:86): `format!("config.toml.{}", ts)` where `ts` is the
formatted current local time. -/
def backupName (ts : String) : String := "config.toml." ++ ts

/-- The `SubCommand::BackupConfigFile` branch (src/main/vm.rs:85-88): the
relative path `config.toml.<ts>` is handed to `fs::copy`, so the OS
resolves it against the current working directory. -/
def runBackup (vm : Vm) (cwd ts : String) (fs : Fs) : Option Fs :=
  Vm.backup_config_file vm (resolvePath cwd (backupName ts)) fs

/-- The spec's key/name invariant on a `vm_list`, as an executable check:
every key equals the `name` field of the entry it maps to. -/
def keysMatchB (l : List (String × Info)) : Bool :=
  l.all (fun p => p.2.name == p.1)

/-- Sample registry used by concrete witnesses: one entry `web`. -/
def sampleConfig : Config :=
  { vagrant_path := "vagrant", vm_list := [("web", { name := "web", path := "/srv/web" })] }

/-- Sample `Vm` at the standard config location. -/
def sampleVm : Vm :=
  { config_file_path := "/home/u/.config/vm/config.toml", config := sampleConfig }

/-- Sample `Vm` with an empty registry (fresh first run). -/
def emptyVm : Vm :=
  { config_file_path := "/home/u/.config/vm/config.toml", config := defaultConfig }

/-- A well-formed persisted file whose table header key (`foo`) differs
from its `name` field (`bar`). -/
def mismatchFileText : List Char :=
  lit "vagrant_path = \"v\"\n[vm_list.\"foo\"]\nname = \"bar\"\npath = \"/x\"\n"

/-- A filesystem holding the registry file and an already-existing file at
a derived backup name, with different contents. -/
def backupFs : Fs :=
  [("/home/u/.config/vm/config.toml", lit "A"),
   ("/home/u/.config/vm/config.toml.2020", lit "B")]

/-! ### Helper lemmas: map operations -/

theorem btFind_btInsert_self (k : String) (v : Info) (l : List (String × Info)) :
    btFind k (btInsert k v l) = some v := by
  induction l with
  | nil => simp [btInsert, btFind]
  | cons hd t ih =>
    obtain ⟨k', v'⟩ := hd
    by_cases h1 : k < k'
    · simp [btInsert, h1, btFind]
    · by_cases h2 : k = k'
      · simp [btInsert, h1, h2, btFind]
      · simp [btInsert, h1, h2, btFind, Ne.symm h2, ih]

theorem btFind_btInsert_ne (k m : String) (v : Info) (l : List (String × Info)) (h : m ≠ k) :
    btFind m (btInsert k v l) = btFind m l := by
  induction l with
  | nil => simp [btInsert, btFind, Ne.symm h]
  | cons hd t ih =>
    obtain ⟨k', v'⟩ := hd
    by_cases h1 : k < k'
    · simp [btInsert, h1, btFind, Ne.symm h]
    · by_cases h2 : k = k'
      · subst h2
        simp [btInsert, h1, btFind, Ne.symm h]
      · simp [btInsert, h1, h2, btFind, ih]

theorem btFind_btErase_ne (k m : String) (l : List (String × Info)) (h : m ≠ k) :
    btFind m (btErase k l) = btFind m l := by
  induction l with
  | nil => simp [btErase]
  | cons hd t ih =>
    obtain ⟨k', v'⟩ := hd
    by_cases h1 : k' = k
    · subst h1
      simp [btErase, btFind, Ne.symm h]
    · simp [btErase, h1, btFind, ih]

theorem btFind_mem : ∀ (l : List (String × Info)) (k : String) (v : Info),
    btFind k l = some v → (k, v) ∈ l
  | [], _, _, h => by simp [btFind] at h
  | (k', v') :: t, k, v, h => by
    by_cases h1 : k' = k
    · subst h1
      simp [btFind] at h
      simp [h]
    · simp [btFind, h1] at h
      exact List.mem_cons_of_mem _ (btFind_mem t k v h)

theorem btFind_not_mem_keys : ∀ (l : List (String × Info)) (k : String),
    k ∉ l.map Prod.fst → btFind k l = none
  | [], _, _ => rfl
  | (k', v') :: t, k, h => by
    simp only [List.map_cons, List.mem_cons] at h
    push_neg at h
    simp [btFind, Ne.symm h.1, btFind_not_mem_keys t k h.2]

theorem btFind_btErase_self : ∀ (l : List (String × Info)),
    (l.map Prod.fst).Nodup → ∀ k, btFind k (btErase k l) = none
  | [], _, _ => rfl
  | (k', v') :: t, hnd, k => by
    simp only [List.map_cons, List.nodup_cons] at hnd
    by_cases h1 : k' = k
    · subst h1
      simp [btErase, btFind_not_mem_keys t k' hnd.1]
    · simp [btErase, h1, btFind, btFind_btErase_self t hnd.2 k]

theorem mem_btInsert : ∀ (l : List (String × Info)) (k : String) (v : Info) (p : String × Info),
    p ∈ btInsert k v l → p = (k, v) ∨ p ∈ l
  | [], k, v, p, h => by simpa [btInsert] using h
  | (k', v') :: t, k, v, p, h => by
    by_cases h1 : k < k'
    · simp only [btInsert, if_pos h1, List.mem_cons] at h
      simp only [List.mem_cons]
      tauto
    · by_cases h2 : k = k'
      · simp only [btInsert, if_neg h1, if_pos h2, List.mem_cons] at h
        simp only [List.mem_cons]
        tauto
      · simp only [btInsert, if_neg h1, if_neg h2, List.mem_cons] at h
        simp only [List.mem_cons]
        rcases h with h | h
        · tauto
        · rcases mem_btInsert t k v p h with h | h <;> tauto

theorem mem_btErase : ∀ (l : List (String × Info)) (k : String) (p : String × Info),
    p ∈ btErase k l → p ∈ l
  | [], _, _, h => by simp [btErase] at h
  | (k', v') :: t, k, p, h => by
    by_cases h1 : k' = k
    · subst h1
      simp only [btErase, if_pos rfl] at h
      exact List.mem_cons_of_mem _ h
    · simp only [btErase, if_neg h1, List.mem_cons] at h
      simp only [List.mem_cons]
      rcases h with h | h
      · tauto
      · exact Or.inr (mem_btErase t k p h)

/-! ### Helper lemmas: filesystem -/

theorem fsRead_fsWrite_self (p : String) (c : List Char) (fs : Fs) :
    fsRead p (fsWrite p c fs) = some c := by
  induction fs with
  | nil => simp [fsWrite, fsRead]
  | cons hd t ih =>
    obtain ⟨q, d⟩ := hd
    by_cases h : q = p
    · simp [fsWrite, h, fsRead]
    · simp [fsWrite, h, fsRead, ih]

theorem fsWrite_fsWrite_self (p : String) (c : List Char) (fs : Fs) :
    fsWrite p c (fsWrite p c fs) = fsWrite p c fs := by
  induction fs with
  | nil => simp [fsWrite]
  | cons hd t ih =>
    obtain ⟨q, d⟩ := hd
    by_cases h : q = p
    · simp [fsWrite, h]
    · simp [fsWrite, h, ih]

/-! ### Helper lemmas: codec round-trip -/

theorem strMk_data (s : String) : String.mk s.data = s := rfl

theorem parseLit_append (l rest : List Char) : parseLit l (l ++ rest) = some rest := by
  induction l with
  | nil => rfl
  | cons c t ih => simp [parseLit, ih]

theorem parseStrBody_round (l rest : List Char) :
    parseStrBody (escapeChars l ++ '"' :: rest) = some (l, rest) := by
  induction l with
  | nil =>
    rw [show escapeChars [] ++ '"' :: rest = '"' :: rest from by simp [escapeChars]]
    rw [parseStrBody.eq_def]
    simp
  | cons c t ih =>
    by_cases h1 : c = '\\'
    · subst h1
      rw [show escapeChars ('\\' :: t) ++ '"' :: rest
            = '\\' :: '\\' :: (escapeChars t ++ '"' :: rest) from by simp [escapeChars]]
      rw [parseStrBody.eq_def]
      simp [ih]
    · by_cases h2 : c = '"'
      · subst h2
        rw [show escapeChars ('"' :: t) ++ '"' :: rest
              = '\\' :: '"' :: (escapeChars t ++ '"' :: rest) from by simp [escapeChars]]
        rw [parseStrBody.eq_def]
        simp [ih]
      · by_cases h3 : c = '\n'
        · subst h3
          rw [show escapeChars ('\n' :: t) ++ '"' :: rest
                = '\\' :: 'n' :: (escapeChars t ++ '"' :: rest) from by simp [escapeChars]]
          rw [parseStrBody.eq_def]
          simp [ih]
        · rw [show escapeChars (c :: t) ++ '"' :: rest
                = c :: (escapeChars t ++ '"' :: rest) from by simp [escapeChars, h1, h2, h3]]
          rw [parseStrBody.eq_def]
          simp [ih, h1, h2]

theorem parseQuoted_round (s : String) (rest : List Char) :
    parseQuoted (quoteStr s ++ rest) = some (s, rest) := by
  simp [quoteStr, parseQuoted, List.append_assoc, parseStrBody_round, strMk_data]

theorem decodeEntry_round (k : String) (i : Info) (rest : List Char) :
    decodeEntry (encodeEntry k i ++ rest) = some ((k, i), rest) := by
  simp [encodeEntry, decodeEntry, List.append_assoc, parseLit_append, parseQuoted_round]

theorem lit_header_ne_nil : lit "[vm_list." ≠ [] := by decide

theorem encodeEntry_append_ne_nil (k : String) (i : Info) (t : List Char) :
    encodeEntry k i ++ t ≠ [] := by
  simp only [encodeEntry, List.append_assoc, ne_eq, List.append_eq_nil]
  intro h
  exact lit_header_ne_nil h.1

theorem decodeEntries_round :
    ∀ (l : List (String × Info)) (fuel : Nat), l.length ≤ fuel →
      decodeEntries fuel (encodeEntries l) = some l := by
  intro l
  induction l with
  | nil =>
    intro fuel _
    cases fuel <;> simp [decodeEntries, encodeEntries]
  | cons e t ih =>
    intro fuel hle
    obtain ⟨k, i⟩ := e
    cases fuel with
    | zero => simp at hle
    | succ f =>
      have hle' : t.length ≤ f := by
        simp only [List.length_cons] at hle
        omega
      have hne := encodeEntry_append_ne_nil k i (encodeEntries t)
      show decodeEntries (f + 1) (encodeEntry k i ++ encodeEntries t) = some ((k, i) :: t)
      rw [decodeEntries, if_neg hne, decodeEntry_round]
      simp [ih f hle']

theorem length_le_encodeEntries : ∀ (l : List (String × Info)),
    l.length ≤ (encodeEntries l).length := by
  intro l
  induction l with
  | nil => simp [encodeEntries]
  | cons e t ih =>
    obtain ⟨k, i⟩ := e
    have h0 : (lit "[vm_list.").length = 9 := by decide
    simp only [encodeEntries, encodeEntry, List.length_cons, List.length_append, h0,
      List.append_assoc]
    omega

theorem decodeConfig_encodeConfig (c : Config) : decodeConfig (encodeConfig c) = some c := by
  obtain ⟨vp, l⟩ := c
  simp only [encodeConfig, decodeConfig, List.append_assoc, parseLit_append, parseQuoted_round]
  rw [decodeEntries_round l _ (length_le_encodeEntries l)]

/-! ### Helper lemma: the confirmation byte test -/

theorem confirmByte_iff (b : Nat) : confirmByte b = true ↔ b = 121 ∨ b = 89 := by
  simp only [confirmByte, asciiIsAlphabetic, asciiToLower, Bool.and_eq_true, decide_eq_true_eq,
    beq_iff_eq]
  split_ifs with h <;> omega

/-! ### Claim theorems -/

/-- C9: `add(name, p1)` then `add(name, p2)` returns the entry previously
stored for `name` (the one with `p1`) as the collision result, a subsequent
`get(name)` returns an entry with `p2`, and the collision result of any
`add` is exactly the prior binding (so `none` when no prior entry existed). -/
theorem add_collision_returns_previous (vm : Vm) (name p1 p2 : String) :
    (Vm.add (Vm.add vm name p1).1 name p2).2 = some { name := name, path := p1 } ∧
    Vm.get_info (Vm.add (Vm.add vm name p1).1 name p2).1 name =
      some { name := name, path := p2 } ∧
    (Vm.add vm name p1).2 = Vm.get_info vm name := by
  refine ⟨?_, ?_, rfl⟩
  · simp [Vm.add, btFind_btInsert_self]
  · simp [Vm.add, Vm.get_info, btFind_btInsert_self]

/-- C10: the in-memory mutations `add(n, p)` and `remove(n)` leave the
config file path, the tool path (`vagrant_path`), and every entry whose
name differs from `n` unchanged. -/
theorem add_remove_frame (vm : Vm) (n p m : String) (h : m ≠ n) :
    (Vm.add vm n p).1.config_file_path = vm.config_file_path ∧
    (Vm.add vm n p).1.config.vagrant_path = vm.config.vagrant_path ∧
    Vm.get_info (Vm.add vm n p).1 m = Vm.get_info vm m ∧
    (Vm.remove vm n).1.config_file_path = vm.config_file_path ∧
    (Vm.remove vm n).1.config.vagrant_path = vm.config.vagrant_path ∧
    Vm.get_info (Vm.remove vm n).1 m = Vm.get_info vm m := by
  refine ⟨rfl, rfl, ?_, rfl, rfl, ?_⟩
  · simp [Vm.add, Vm.get_info, btFind_btInsert_ne _ _ _ _ h]
  · simp [Vm.remove, Vm.get_info, btFind_btErase_ne _ _ _ h]

theorem add_remove_frame_witness :
    Vm.get_info (Vm.add sampleVm "db" "/d").1 "web" = Vm.get_info sampleVm "web" ∧
    Vm.get_info (Vm.remove sampleVm "db").1 "web" = Vm.get_info sampleVm "web" :=
  ⟨(add_remove_frame sampleVm "db" "/d" "web" (by decide)).2.2.1,
   (add_remove_frame sampleVm "db" "/d" "web" (by decide)).2.2.2.2.2⟩

/-- C2 (code bug): `Vm::add` stores the supplied path verbatim, so after
adding a relative path, `get` returns an entry whose stored path is still
relative — the crate doc (src/lib.rs line 7) and the claim say it is
converted to an absolute path, but no conversion happens anywhere on the
`Add` path. -/
theorem add_keeps_relative_path_verbatim :
    Vm.get_info (Vm.add emptyVm "db" "proj/db").1 "db" =
      some { name := "db", path := "proj/db" } ∧
    isAbsolute "proj/db" = false := by decide

/-- C1 (code bug): in the Remove flow the `force` flag is bound but never
read (src/main/vm.rs:56-84), so with `force = true` and the entry present
the prompt is still issued and the stdin byte still consulted: with input
byte `n` (110), or with a closed input stream, the entry is NOT removed,
contradicting the claim (and the crate doc, src/lib.rs line 13) that
`force` removes unconditionally without consulting input. -/
theorem remove_force_flag_ignored :
    runRemove sampleVm "web" true (some 110) = (sampleVm, false) ∧
    runRemove sampleVm "web" true none = (sampleVm, false) ∧
    Vm.get_info (runRemove sampleVm "web" true (some 110)).1 "web" =
      some { name := "web", path := "/srv/web" } := by decide

/-- C5 counterexample: for a named forwarding request whose name resolves,
when the termination status carries no exit code (process killed by a
signal) the tool exits with `unwrap_or(0)` — code 0, not a fixed non-zero
code as the claim states. -/
theorem raw_signal_status_exits_zero :
    Vm.get_info sampleVm "web" = some { name := "web", path := "/srv/web" } ∧
    runRaw sampleVm "web" none = 0 := by decide

/-- C5 amended: for a named forwarding request whose name resolves to an
entry, the tool's exit status equals the external process's exit code when
one exists, and is 0 (not a non-zero code) when the termination status
carries no exit code. -/
theorem raw_exit_code_propagation (vm : Vm) (name : String) (info : Info) (code : Int)
    (h : Vm.get_info vm name = some info) :
    runRaw vm name (some code) = code ∧ runRaw vm name none = 0 := by
  simp [runRaw, h]

theorem raw_exit_code_propagation_witness :
    runRaw sampleVm "web" (some 7) = 7 ∧ runRaw sampleVm "web" none = 0 :=
  raw_exit_code_propagation sampleVm "web" { name := "web", path := "/srv/web" } 7 (by decide)

/-- C7: in the non-forced Remove flow with the entry present, removal
proceeds if and only if the single byte read from stdin is `y` (121) or
`Y` (89); any other byte, and a closed stream yielding no byte, abort the
removal without error (the registry is left unchanged); when removal does
proceed, the entry is gone afterwards. -/
theorem remove_confirmation_iff_y (vm : Vm) (name : String) (info : Info) (input : Option Nat)
    (hp : Vm.get_info vm name = some info)
    (hkm : keysMatchB vm.config.vm_list = true)
    (hnd : (vm.config.vm_list.map Prod.fst).Nodup) :
    ((runRemove vm name false input).2 = true ↔ input = some 121 ∨ input = some 89) ∧
    ((runRemove vm name false input).2 = false → runRemove vm name false input = (vm, false)) ∧
    ((runRemove vm name false input).2 = true →
      Vm.get_info (runRemove vm name false input).1 name = none) := by
  have hmem := btFind_mem _ _ _ hp
  have hname : info.name = name := by
    have h2 := List.all_eq_true.mp hkm _ hmem
    simpa using h2
  cases input with
  | none =>
    refine ⟨by simp [runRemove, hp], fun _ => by simp [runRemove, hp], ?_⟩
    intro h
    simp [runRemove, hp] at h
  | some b =>
    by_cases hc : confirmByte b = true
    · have hb := (confirmByte_iff b).mp hc
      refine ⟨?_, ?_, ?_⟩
      · rcases hb with rfl | rfl <;> simp [runRemove, hp, hc]
      · intro h
        simp [runRemove, hp, hc] at h
      · intro _
        have hp' : btFind name vm.config.vm_list = some info := hp
        simp [runRemove, Vm.get_info, Vm.remove, hp', hc, hname,
          btFind_btErase_self vm.config.vm_list hnd name]
    · have hb1 : b ≠ 121 := fun h => hc ((confirmByte_iff b).mpr (Or.inl h))
      have hb2 : b ≠ 89 := fun h => hc ((confirmByte_iff b).mpr (Or.inr h))
      refine ⟨by simp [runRemove, hp, hc, hb1, hb2], fun _ => by simp [runRemove, hp, hc], ?_⟩
      intro h
      simp [runRemove, hp, hc] at h

theorem remove_confirmation_iff_y_witness :
    (runRemove sampleVm "web" false (some 121)).2 = true ↔
      some 121 = some 121 ∨ some 121 = some 89 :=
  (remove_confirmation_iff_y sampleVm "web" { name := "web", path := "/srv/web" } (some 121)
    (by decide) (by decide) (by decide)).1

/-- C3 counterexample: when a file already exists at the derived backup
name, `backup_config_file` succeeds and silently overwrites it with the
registry file's contents instead of failing as the claim requires. -/
theorem backup_overwrites_existing_destination :
    Vm.backup_config_file sampleVm "/home/u/.config/vm/config.toml.2020" backupFs =
      some [("/home/u/.config/vm/config.toml", lit "A"),
            ("/home/u/.config/vm/config.toml.2020", lit "A")] := by decide

/-- C3 amended: whenever the registry file exists, the backup operation
succeeds and the destination afterwards holds the registry file's contents
regardless of whether a file already existed there — an existing file at
the derived name is silently overwritten (`std::fs::copy` semantics), the
operation does not fail. -/
theorem backup_config_file_copies_unconditionally (vm : Vm) (dst : String) (fs : Fs)
    (c : List Char) (hsrc : fsRead vm.config_file_path fs = some c) :
    Vm.backup_config_file vm dst fs = some (fsWrite dst c fs) := by
  simp [Vm.backup_config_file, fsCopy, hsrc]

theorem backup_config_file_copies_unconditionally_witness :
    Vm.backup_config_file sampleVm "/home/u/.config/vm/config.toml.2020" backupFs =
      some (fsWrite "/home/u/.config/vm/config.toml.2020" (lit "A") backupFs) :=
  backup_config_file_copies_unconditionally sampleVm "/home/u/.config/vm/config.toml.2020"
    backupFs (lit "A") (by decide)

/-- C4 (code bug): the BackupConfig branch passes the bare relative name
`config.toml.<ts>` to `fs::copy`, so the backup lands in the current
working directory, not in the registry file's own directory as the claim
(and the crate doc, src/lib.rs line 14) require: with the registry at
/home/u/.config/vm/config.toml and cwd /tmp, the copy is created at
/tmp/config.toml.<ts> and nothing appears next to the registry file. -/
theorem backup_written_to_cwd_not_config_dir :
    runBackup sampleVm "/tmp" "20201101-120000"
        [("/home/u/.config/vm/config.toml", lit "cfg")] =
      some [("/home/u/.config/vm/config.toml", lit "cfg"),
            ("/tmp/config.toml.20201101-120000", lit "cfg")] ∧
    fsRead "/home/u/.config/vm/config.toml.20201101-120000"
        ((runBackup sampleVm "/tmp" "20201101-120000"
            [("/home/u/.config/vm/config.toml", lit "cfg")]).getD []) = none := by decide

/-- C6: a save/load cycle round-trips: loading the saved file reproduces
the registry exactly (so `save(load(save(R, f)), f)` rewrites the very
same registry), and saving again writes a byte-for-byte identical file
(the filesystem is unchanged by the second save). -/
theorem save_load_save_roundtrip (c : Config) (path : String) (fs : Fs) :
    Config.from_file path (Config.save_to_file c path fs) = some c ∧
    Config.save_to_file c path (Config.save_to_file c path fs) =
      Config.save_to_file c path fs := by
  constructor
  · simp [Config.from_file, Config.save_to_file, fsRead_fsWrite_self, decodeConfig_encodeConfig]
  · simp [Config.save_to_file, fsWrite_fsWrite_self]

/-- C8 counterexample: loading a well-formed persisted file whose table
header key (`foo`) differs from its `name` field (`bar`) succeeds and
yields a registry that violates the key/name invariant, because the file
format stores the name both as the map key and as a field of the entry. -/
theorem load_breaks_key_name_invariant :
    Config.from_file "/cfg" [("/cfg", mismatchFileText)] =
      some { vagrant_path := "v",
             vm_list := [("foo", { name := "bar", path := "/x" })] } ∧
    keysMatchB [("foo", ({ name := "bar", path := "/x" } : Info))] = false := by decide

/-- C8 amended: every key of the registry equals the `name` field of its
entry after fresh construction, and this invariant is preserved by `add`,
by `remove`, and by loading a file that was saved from a registry
satisfying it; loading an arbitrary well-formed file, however, can produce
a registry violating it (see the counterexample). -/
theorem key_name_invariant_preserved :
    keysMatchB defaultConfig.vm_list = true ∧
    (∀ vm name path, keysMatchB vm.config.vm_list = true →
      keysMatchB (Vm.add vm name path).1.config.vm_list = true) ∧
    (∀ vm name, keysMatchB vm.config.vm_list = true →
      keysMatchB (Vm.remove vm name).1.config.vm_list = true) ∧
    (∀ c path fs c', keysMatchB c.vm_list = true →
      Config.from_file path (Config.save_to_file c path fs) = some c' →
      keysMatchB c'.vm_list = true) := by
  refine ⟨rfl, ?_, ?_, ?_⟩
  · intro vm name path h
    simp only [keysMatchB, List.all_eq_true] at h ⊢
    intro p hp
    simp only [Vm.add] at hp
    rcases mem_btInsert _ _ _ _ hp with h1 | h1
    · subst h1
      simp
    · exact h p h1
  · intro vm name h
    simp only [keysMatchB, List.all_eq_true] at h ⊢
    intro p hp
    simp only [Vm.remove] at hp
    exact h p (mem_btErase _ _ _ hp)
  · intro c path fs c' h hload
    have heq : Config.from_file path (Config.save_to_file c path fs) = some c := by
      simp [Config.from_file, Config.save_to_file, fsRead_fsWrite_self, decodeConfig_encodeConfig]
    rw [heq] at hload
    injection hload with hcc
    subst hcc
    exact h

theorem key_name_invariant_preserved_witness :
    keysMatchB (Vm.add emptyVm "db" "/d").1.config.vm_list = true :=
  key_name_invariant_preserved.2.1 emptyVm "db" "/d" (by decide)
